import Mathlib

set_option maxHeartbeats 1000000

/-!
Shallow embedding of `pyxem/generators/diffraction_generator.py`
(`DiffractionGenerator.calculate_ed_data` and
`DiffractionGenerator.calculate_profile_data`).

Modelling conventions:
* Python floats are idealised as exact rationals `ℚ`.
* Transcendental kernels that a rational embedding cannot execute are
  abstracted as explicit function parameters and the theorems quantify over
  them: `sqrtF`/`arcsinF`/`cosF` stand for `np.sqrt`/`np.arcsin`/`np.cos`,
  and the intensity functions `I`/`Ikin` stand for the structure-factor
  computation (`diffraction_generator.py` lines 215–243, resp. the external
  `get_kinematical_intensities`), whose numeric value none of the verified
  claims depend on.
* Python exceptions become `Except PyError`; the only exception class the
  relevant code raises is `ValueError`, carried with its message string.
* External collaborators (pymatgen's `get_points_in_sphere`,
  `get_cartesian_coords`) are represented by taking their output — the list
  of enumerated reciprocal points — as input.
-/

/-- Python exception observable from the embedded code: the source raises
only `ValueError`, carried here with its message string. -/
inductive PyError where
  | valueError (msg : String)
deriving DecidableEq, Repr

/-- One entry of pymatgen's `get_points_in_sphere` output as consumed by
`calculate_profile_data`: the (float-valued) hkl triple `(h, k, l)` and the
g-vector magnitude `g` (`g_hkl` in the source; the third tuple component
`ind` is never used by the code under study and is omitted). -/
structure RecipPoint where
  h : ℚ
  k : ℚ
  l : ℚ
  g : ℚ
deriving DecidableEq, Repr

/-- Python 3 `round`: round half to even (banker's rounding), used by
`hkl = [int(round(i)) for i in hkl]` (line 212). -/
def pyRound (q : ℚ) : ℤ :=
  let f := ⌊q⌋
  let r := q - f
  if r < 1 / 2 then f
  else if 1 / 2 < r then f + 1
  else if 2 ∣ f then f else f + 1

/-- Sort key of the processing loop (line 209–210):
`key=lambda i: (i[1], -i[0][0], -i[0][1], -i[0][2])`, i.e. the tuple
`(g, -h, -k, -l)` compared lexicographically as Python compares tuples. -/
def ptKey (p : RecipPoint) : ℚ ×ₗ (ℚ ×ₗ (ℚ ×ₗ ℚ)) :=
  toLex (p.g, toLex (-p.h, toLex (-p.k, -p.l)))

/-- Comparison relation realising Python's `sorted` with the key above. -/
def ptKeyLE (a b : RecipPoint) : Prop := ptKey a ≤ ptKey b

instance : DecidableRel ptKeyLE :=
  fun a b => inferInstanceAs (Decidable (ptKey a ≤ ptKey b))

instance : IsTotal RecipPoint ptKeyLE := ⟨fun a b => le_total (ptKey a) (ptKey b)⟩

instance : IsTrans RecipPoint ptKeyLE := ⟨fun _ _ _ => le_trans⟩

/-- The deterministic processing order of `calculate_profile_data`:
Python's `sorted` is a stable sort by the tuple key; a stable insertion
sort by the same total key realises it. -/
def sortPoints (pts : List RecipPoint) : List RecipPoint :=
  List.insertionSort ptKeyLE pts

/-- One entry of the `peaks` dict together with its key: `peaks[g] =
[intensity, family list, d_hkl]` (line 257). The bucket list is kept in
`gs`-insertion order, exactly as the `gs` list tracks the dict keys. -/
structure Bucket where
  g : ℚ
  intensity : ℚ
  fam : List (List ℤ)
  d : ℚ
deriving DecidableEq, Repr

/-- Lines 250–258: find the first recorded magnitude within
`magnitude_tolerance` of `g` (`np.where(np.abs(np.subtract(gs, g_hkl)) <
magnitude_tolerance)`, first index); on a hit accumulate the intensity and
append the hkl to that bucket's family; otherwise append a fresh bucket,
which also appends `g` to `gs`. -/
def addPeak (tol g i : ℚ) (hkl : List ℤ) (d : ℚ) : List Bucket → List Bucket
  | [] => [⟨g, i, [hkl], d⟩]
  | b :: bs =>
    if |b.g - g| < tol then
      { b with intensity := b.intensity + i, fam := b.fam ++ [hkl] } :: bs
    else
      b :: addPeak tol g i hkl d bs

/-- Miller–Bravais relabelling for hexagonal lattices (lines 247–249):
`hkl = (h, k, -h-k, l)`; applied after the intensity is computed. -/
def hexRelabel (is_hex : Bool) (h k l : ℤ) : List ℤ :=
  if is_hex then [h, k, -h - k, l] else [h, k, l]

/-- Body of the processing loop (lines 209–258) for one enumerated point:
round the hkl to integers, skip `g_hkl == 0`, compute the kinematic
intensity `i_hkl` (abstracted as `I`, a function of the rounded hkl and the
magnitude), relabel for hexagonal lattices, and merge into the buckets. -/
def stepPoint (I : List ℤ → ℚ → ℚ) (is_hex : Bool) (tol : ℚ)
    (bs : List Bucket) (p : RecipPoint) : List Bucket :=
  let h := pyRound p.h
  let k := pyRound p.k
  let l := pyRound p.l
  if p.g = 0 then bs
  else addPeak tol p.g (I [h, k, l] p.g) (hexRelabel is_hex h k l) (1 / p.g) bs

/-- The whole accumulation loop: fold the step over the points in the
deterministic sorted order, starting from the empty `peaks` dict. -/
def processPoints (I : List ℤ → ℚ → ℚ) (is_hex : Bool) (tol : ℚ)
    (pts : List RecipPoint) : List Bucket :=
  (sortPoints pts).foldl (stepPoint I is_hex tol) []

/-- Python's `max` over a nonempty list `a :: l`, as a left fold. -/
def pyMax (a : ℚ) (l : List ℚ) : ℚ := l.foldl max a

/-- A pymatgen species as far as the code reads it: atomic number `Z` and
element `symbol`. -/
structure Species where
  Z : ℤ
  symbol : String
deriving DecidableEq, Repr

/-- A pymatgen site as far as the code reads it: its species/occupancy
pairs and fractional coordinates. -/
structure Site where
  species_and_occu : List (Species × ℚ)
  frac_coords : List ℚ
deriving DecidableEq, Repr

/-- One record of the flattened per-(site, species) arrays built by lines
181–205 (`zs`, `coeffs`, `dwfactors`, `fcoords`, `occus`). -/
structure FlatSpecies where
  z : ℤ
  coeff : List (ℚ × ℚ)
  dwfactor : ℚ
  fcoords : List ℚ
  occu : ℚ
deriving DecidableEq, Repr

/-- Message of the `ValueError` raised at lines 193–195 for an element
symbol missing from `ATOMIC_SCATTERING_PARAMS`. -/
def unknownElementMsg (symbol : String) : String :=
  "Unable to calculate XRD pattern as there is no scattering coefficients for "
    ++ symbol ++ "."

/-- Inner loop of lines 188–199 over one site's `species_and_occu`: look
each symbol up in the scattering table (`table`), raising on the first
missing symbol, and otherwise emit the flattened record (the Debye–Waller
map is `dwmap`, defaulting to 0 inside via the caller). -/
def flattenSpecies (table : String → Option (List (ℚ × ℚ))) (dwmap : String → ℚ)
    (fc : List ℚ) : List (Species × ℚ) → Except PyError (List FlatSpecies)
  | [] => .ok []
  | (sp, occu) :: rest =>
    match table sp.symbol with
    | none => .error (.valueError (unknownElementMsg sp.symbol))
    | some c =>
      match flattenSpecies table dwmap fc rest with
      | .error e => .error e
      | .ok tail => .ok (⟨sp.Z, c, dwmap sp.symbol, fc, occu⟩ :: tail)

/-- Outer loop of lines 187–199 over the structure's sites. -/
def flattenSites (table : String → Option (List (ℚ × ℚ))) (dwmap : String → ℚ) :
    List Site → Except PyError (List FlatSpecies)
  | [] => .ok []
  | s :: rest =>
    match flattenSpecies table dwmap s.frac_coords s.species_and_occu with
    | .error e => .error e
    | .ok head =>
      match flattenSites table dwmap rest with
      | .error e => .error e
      | .ok tail => .ok (head ++ tail)

/-- Modelled from the spec: `get_unique_families` lives in
`pyxem.utils.sim_utils`, which is not among the sources here.  The spec
(§4.2 step 8) says it reduces a bucket's list of hkl tuples to the unique
family members, and that a minimal conforming implementation "may perform
exact-duplicate-tuple dedup only" (§9); we model that minimal behaviour. -/
def get_unique_families (l : List (List ℤ)) : List (List ℤ) := l.dedup

/-- One record of the returned `ProfileSimulation`: an entry of the
parallel `x` (magnitudes), `y` (rescaled intensities) and `hkls` (unique
families) lists of lines 262–277.  The `d_hkls` list is collected by the
source but not returned. -/
structure ProfileRecord where
  magnitude : ℚ
  intensity : ℚ
  fam : List (List ℤ)
deriving DecidableEq, Repr

/-- Key order used by `sorted(peaks.keys())` at line 266, lifted to the
bucket list (bucket keys are the magnitudes). -/
def bucketLE (a b : Bucket) : Prop := a.g ≤ b.g

instance : DecidableRel bucketLE := fun a b => inferInstanceAs (Decidable (a.g ≤ b.g))

instance : IsTotal Bucket bucketLE := ⟨fun a b => le_total a.g b.g⟩

instance : IsTrans Bucket bucketLE := ⟨fun _ _ _ => le_trans⟩

/-- Python's `max([v[0] for v in peaks.values()])` for the nonempty bucket
list `b :: bs` (line 261). -/
def bucketsMax (b : Bucket) (bs : List Bucket) : ℚ :=
  pyMax b.intensity (bs.map Bucket.intensity)

/-- Filter of lines 266–273: keep a bucket iff its intensity rescaled
against the global maximum strictly exceeds `minimum_intensity` (the
comparison is on the 0–100 scale). -/
def filterBuckets (minI maxI : ℚ) (sorted : List Bucket) : List Bucket :=
  sorted.filter (fun v => decide (v.intensity / maxI * 100 > minI))

/-- Final per-record assembly: magnitude key, intensity rescaled by
`y / max(y) * 100` (line 275), and the unique family (line 268). -/
def mkRecord (maxY : ℚ) (b : Bucket) : ProfileRecord :=
  ⟨b.g, b.intensity / maxY * 100, get_unique_families b.fam⟩

/-- Lines 260–277: normalisation, filtering and assembly of the profile.
`max` of an empty sequence raises `ValueError("max() arg is an empty
sequence")`, both at line 261 (no buckets at all) and at line 275 (no
bucket passed the filter). -/
def profileFromBuckets : List Bucket → ℚ → Except PyError (List ProfileRecord)
  | [], _ => .error (.valueError "max() arg is an empty sequence")
  | b :: bs, minI =>
    match filterBuckets minI (bucketsMax b bs) (List.insertionSort bucketLE (b :: bs)) with
    | [] => .error (.valueError "max() arg is an empty sequence")
    | f :: fs => .ok ((f :: fs).map (mkRecord (bucketsMax f fs)))

/-- `DiffractionGenerator.calculate_profile_data` (lines 139–277): flatten
the sites against the scattering table (erroring on an unknown element),
accumulate the peak buckets over the enumerated points, then normalise,
filter and assemble the profile. -/
def calculate_profile_data (table : String → Option (List (ℚ × ℚ)))
    (dwmap : String → ℚ) (I : List ℤ → ℚ → ℚ) (sites : List Site)
    (is_hex : Bool) (pts : List RecipPoint) (tol minI : ℚ) :
    Except PyError (List ProfileRecord) :=
  match flattenSites table dwmap sites with
  | .error e => .error e
  | .ok _ => profileFromBuckets (processPoints I is_hex tol pts) minI

/-- One entry of the input to `calculate_ed_data` after the external
pymatgen calls: the (float) hkl triple from `get_points_in_sphere`, the
Cartesian reciprocal coordinates `(x, y, z)` from `get_cartesian_coords`,
and the g-vector magnitude `g`. -/
structure EdPoint where
  hkl : List ℚ
  x : ℚ
  y : ℚ
  z : ℚ
  g : ℚ
deriving DecidableEq, Repr

/-- Lines 106–112, staged exactly as the source computes them:
`radius = 1 / wavelength`; `r = np.sqrt(x² + y²)`;
`theta = np.arcsin(r / radius)`; `z_sphere = radius * (1 - np.cos(theta))`;
`proximity = np.absolute(z_sphere - z)`.  The transcendental kernels are
abstracted as the parameters `sqrtF`, `arcsinF`, `cosF`. -/
def excitationError (sqrtF arcsinF cosF : ℚ → ℚ) (wavelength x y z : ℚ) : ℚ :=
  let radius := 1 / wavelength
  let r := sqrtF (x ^ 2 + y ^ 2)
  let theta := arcsinF (r / radius)
  let z_sphere := radius * (1 - cosF theta)
  |z_sphere - z|

/-- The excitation-error magnitude exactly as the specification writes it
(spec §4.1 step 2): `|(1/λ)·(1 − cos(arcsin(sqrt(x²+y²)·λ))) − z|`.  Kept
separate from `excitationError` so the two can be compared. -/
def excitationErrorSpec (sqrtF arcsinF cosF : ℚ → ℚ) (wavelength x y z : ℚ) : ℚ :=
  |1 / wavelength * (1 - cosF (arcsinF (sqrtF (x ^ 2 + y ^ 2) * wavelength))) - z|

/-- Line 113 and lines 115–118: the boolean mask `proximity <
max_excitation_error` applied to the enumerated points. -/
def intersectedPoints (sqrtF arcsinF cosF : ℚ → ℚ) (wavelength maxExc : ℚ)
    (pts : List EdPoint) : List EdPoint :=
  pts.filter (fun p =>
    decide (excitationError sqrtF arcsinF cosF wavelength p.x p.y p.z < maxExc))

/-- Modelled from the spec: `get_kinematical_intensities` lives in
`pyxem.utils.sim_utils`, which is not among the sources here.  Per the spec
it shares the scattering-table lookup with the profile reducer (§4.1 step 4
"implementations should share one routine"; §8 error scenario: the unknown
element error is raised "for both simulate and profile") and produces one
kinematic intensity per retained point as a function of the point and its
excitation-error proximity; the numeric law is abstracted as `Ikin`, which
the spec leaves underspecified (§9 open question). -/
def get_kinematical_intensities (table : String → Option (List (ℚ × ℚ)))
    (dwmap : String → ℚ) (sites : List Site) (Ikin : EdPoint → ℚ → ℚ)
    (sqrtF arcsinF cosF : ℚ → ℚ) (wavelength : ℚ) (pts : List EdPoint) :
    Except PyError (List ℚ) :=
  match flattenSites table dwmap sites with
  | .error e => .error e
  | .ok _ =>
    .ok (pts.map (fun p =>
      Ikin p (excitationError sqrtF arcsinF cosF wavelength p.x p.y p.z)))

/-- Modelled from the spec: the `DiffractionSimulation` result class
(`pyxem.signals.diffraction_simulation`, not among the sources) is, per
spec §3, "ordered parallel arrays — Cartesian reflection coordinates,
integer hkl indices, non-negative intensities — plus a flag for whether the
direct beam is included". -/
structure DiffractionSimulation where
  coordinates : List (ℚ × ℚ × ℚ)
  indices : List (List ℚ)
  intensities : List ℚ
  with_direct_beam : Bool
deriving DecidableEq, Repr

/-- `DiffractionGenerator.calculate_ed_data` (lines 69–137): select the
points intersecting the Ewald sphere within the maximum excitation error,
compute their kinematic intensities, drop those with intensity ≤ 1e-20
(`peak_mask = intensities > 1e-20`, line 129, applied to all three parallel
arrays), and assemble the result. -/
def calculate_ed_data (sqrtF arcsinF cosF : ℚ → ℚ)
    (table : String → Option (List (ℚ × ℚ))) (dwmap : String → ℚ)
    (sites : List Site) (Ikin : EdPoint → ℚ → ℚ) (wavelength maxExc : ℚ)
    (pts : List EdPoint) (withDirect : Bool) :
    Except PyError DiffractionSimulation :=
  let inter := intersectedPoints sqrtF arcsinF cosF wavelength maxExc pts
  match get_kinematical_intensities table dwmap sites Ikin
      sqrtF arcsinF cosF wavelength inter with
  | .error e => .error e
  | .ok intensities =>
    let paired := inter.zip intensities
    let kept := paired.filter (fun q => decide ((1 : ℚ) / 10 ^ 20 < q.2))
    .ok ⟨kept.map (fun q => (q.1.x, q.1.y, q.1.z)),
         kept.map (fun q => q.1.hkl),
         kept.map (fun q => q.2),
         withDirect⟩

lemma excitationError_eq_spec (sqrtF arcsinF cosF : ℚ → ℚ) (wavelength x y z : ℚ) :
    excitationError sqrtF arcsinF cosF wavelength x y z
      = excitationErrorSpec sqrtF arcsinF cosF wavelength x y z := by
  simp only [excitationError, excitationErrorSpec]
  rw [one_div, div_inv_eq_mul]

/-- C4: in `calculate_ed_data`, the excitation-error magnitude of a point
with Cartesian coordinates `(x, y, z)` is exactly
`|(1/λ)·(1 − cos(arcsin(sqrt(x²+y²)·λ))) − z|`, and a point is retained by
the intersection mask iff that magnitude is strictly less than
`max_excitation_error` — a sphere-proximity rule, not a
distance-from-origin cutoff. -/
theorem ewald_selection_rule (sqrtF arcsinF cosF : ℚ → ℚ)
    (wavelength maxExc : ℚ) (pts : List EdPoint) (p : EdPoint) :
    excitationError sqrtF arcsinF cosF wavelength p.x p.y p.z
      = |1 / wavelength *
          (1 - cosF (arcsinF (sqrtF (p.x ^ 2 + p.y ^ 2) * wavelength))) - p.z|
    ∧ (p ∈ intersectedPoints sqrtF arcsinF cosF wavelength maxExc pts
        ↔ p ∈ pts ∧
          |1 / wavelength *
            (1 - cosF (arcsinF (sqrtF (p.x ^ 2 + p.y ^ 2) * wavelength))) - p.z|
            < maxExc) := by
  have hform := excitationError_eq_spec sqrtF arcsinF cosF wavelength p.x p.y p.z
  rw [excitationErrorSpec] at hform
  refine ⟨hform, ?_⟩
  simp only [intersectedPoints, List.mem_filter, decide_eq_true_eq, hform]

/-- C7: whenever `calculate_ed_data` returns a simulation, its coordinate,
index and intensity arrays have equal length, and every returned intensity
is strictly greater than 1e-20. -/
theorem ed_data_parallel_arrays_and_floor (sqrtF arcsinF cosF : ℚ → ℚ)
    (table : String → Option (List (ℚ × ℚ))) (dwmap : String → ℚ)
    (sites : List Site) (Ikin : EdPoint → ℚ → ℚ) (wavelength maxExc : ℚ)
    (pts : List EdPoint) (withDirect : Bool) (sim : DiffractionSimulation)
    (hok : calculate_ed_data sqrtF arcsinF cosF table dwmap sites Ikin
        wavelength maxExc pts withDirect = .ok sim) :
    sim.coordinates.length = sim.intensities.length
    ∧ sim.indices.length = sim.intensities.length
    ∧ ∀ i ∈ sim.intensities, (1 : ℚ) / 10 ^ 20 < i := by
  cases hfl : flattenSites table dwmap sites with
  | error e =>
    rw [calculate_ed_data, get_kinematical_intensities, hfl] at hok
    exact absurd hok (by simp)
  | ok fl =>
    rw [calculate_ed_data, get_kinematical_intensities, hfl] at hok
    simp only [Except.ok.injEq] at hok
    subst hok
    refine ⟨by simp, by simp, ?_⟩
    intro i hi
    simp only [List.mem_map, List.mem_filter, decide_eq_true_eq] at hi
    obtain ⟨q, ⟨_, hq⟩, rfl⟩ := hi
    exact hq

lemma pyMax_cons (a x : ℚ) (l : List ℚ) : pyMax a (x :: l) = pyMax (max a x) l := rfl

lemma le_pyMax_left (a : ℚ) (l : List ℚ) : a ≤ pyMax a l := by
  induction l generalizing a with
  | nil => exact le_refl a
  | cons x l ih => exact le_trans (le_max_left a x) (ih (max a x))

lemma le_pyMax_of_mem {x : ℚ} {l : List ℚ} (a : ℚ) (h : x ∈ l) : x ≤ pyMax a l := by
  induction l generalizing a with
  | nil => cases h
  | cons y l ih =>
    rcases List.mem_cons.mp h with rfl | h
    · exact le_trans (le_max_right a x) (le_pyMax_left _ _)
    · exact ih _ h

lemma pyMax_mem (a : ℚ) (l : List ℚ) : pyMax a l = a ∨ pyMax a l ∈ l := by
  induction l generalizing a with
  | nil => exact Or.inl rfl
  | cons x l ih =>
    rw [pyMax_cons]
    rcases ih (max a x) with h | h
    · rcases max_choice a x with hm | hm
      · exact Or.inl (by rw [h, hm])
      · exact Or.inr (by rw [h, hm]; exact List.mem_cons_self x l)
    · exact Or.inr (List.mem_cons_of_mem x h)

lemma bucketsMax_ge {b : Bucket} {bs : List Bucket} {v : Bucket}
    (hv : v ∈ b :: bs) : v.intensity ≤ bucketsMax b bs := by
  rcases List.mem_cons.mp hv with rfl | hv
  · exact le_pyMax_left _ _
  · exact le_pyMax_of_mem _ (List.mem_map_of_mem Bucket.intensity hv)

lemma bucketsMax_attained (b : Bucket) (bs : List Bucket) :
    ∃ v ∈ b :: bs, v.intensity = bucketsMax b bs := by
  rcases pyMax_mem b.intensity (bs.map Bucket.intensity) with h | h
  · exact ⟨b, List.mem_cons_self b bs, h.symm⟩
  · obtain ⟨v, hv, he⟩ := List.mem_map.mp h
    exact ⟨v, List.mem_cons_of_mem _ hv, he⟩

lemma addPeak_eq_of_no_match {tol g : ℚ} {bs : List Bucket} (i : ℚ)
    (hkl : List ℤ) (d : ℚ) (h : ∀ b ∈ bs, ¬(|b.g - g| < tol)) :
    addPeak tol g i hkl d bs = bs ++ [⟨g, i, [hkl], d⟩] := by
  induction bs with
  | nil => simp [addPeak]
  | cons b bs ih =>
    rw [addPeak, if_neg (h b (List.mem_cons_self b bs)), List.cons_append]
    rw [ih (fun x hx => h x (List.mem_cons_of_mem b hx))]

lemma addPeak_g_mem {tol g i : ℚ} {hkl : List ℤ} {d : ℚ} {bs : List Bucket} {x : ℚ}
    (hx : x ∈ (addPeak tol g i hkl d bs).map Bucket.g) :
    x ∈ bs.map Bucket.g ∨ x = g := by
  induction bs with
  | nil => simp [addPeak] at hx; exact Or.inr hx
  | cons b bs ih =>
    rw [addPeak] at hx
    by_cases hb : |b.g - g| < tol
    · rw [if_pos hb, List.map_cons] at hx
      rcases List.mem_cons.mp hx with rfl | hx
      · exact Or.inl (by simp)
      · exact Or.inl (List.mem_cons_of_mem _ hx)
    · rw [if_neg hb, List.map_cons] at hx
      rcases List.mem_cons.mp hx with rfl | hx
      · exact Or.inl (by simp)
      · rcases ih hx with h | h
        · exact Or.inl (List.mem_cons_of_mem _ h)
        · exact Or.inr h

lemma addPeak_intensity_nonneg {tol g i : ℚ} {hkl : List ℤ} {d : ℚ}
    {bs : List Bucket} (hi : 0 ≤ i) (hbs : ∀ v ∈ bs, 0 ≤ v.intensity) :
    ∀ v ∈ addPeak tol g i hkl d bs, 0 ≤ v.intensity := by
  induction bs with
  | nil =>
    intro v hv
    simp only [addPeak, List.mem_singleton] at hv
    subst hv
    exact hi
  | cons b bs ih =>
    intro v hv
    rw [addPeak] at hv
    by_cases hb : |b.g - g| < tol
    · rw [if_pos hb] at hv
      rcases List.mem_cons.mp hv with rfl | hv
      · exact add_nonneg (hbs b (List.mem_cons_self b bs)) hi
      · exact hbs v (List.mem_cons_of_mem b hv)
    · rw [if_neg hb] at hv
      rcases List.mem_cons.mp hv with rfl | hv
      · exact hbs v (List.mem_cons_self v bs)
      · exact ih (fun x hx => hbs x (List.mem_cons_of_mem b hx)) v hv

lemma addPeak_exists_ge {tol g i c : ℚ} {hkl : List ℤ} {d : ℚ} {bs : List Bucket}
    (hi : 0 ≤ i) (hc : ∃ v ∈ bs, c ≤ v.intensity) :
    ∃ v ∈ addPeak tol g i hkl d bs, c ≤ v.intensity := by
  induction bs with
  | nil => obtain ⟨v, hv, _⟩ := hc; cases hv
  | cons b bs ih =>
    obtain ⟨w, hw, hcw⟩ := hc
    rw [addPeak]
    by_cases hb : |b.g - g| < tol
    · rw [if_pos hb]
      rcases List.mem_cons.mp hw with rfl | hw
      · exact ⟨_, List.mem_cons_self _ _, le_trans hcw (by simp [hi])⟩
      · exact ⟨w, List.mem_cons_of_mem _ hw, hcw⟩
    · rw [if_neg hb]
      rcases List.mem_cons.mp hw with rfl | hw
      · exact ⟨w, List.mem_cons_self _ _, hcw⟩
      · obtain ⟨v, hv, hcv⟩ := ih ⟨w, hw, hcw⟩
        exact ⟨v, List.mem_cons_of_mem _ hv, hcv⟩

lemma addPeak_exists_ge_self {tol g i : ℚ} {hkl : List ℤ} {d : ℚ}
    {bs : List Bucket} (hbs : ∀ v ∈ bs, 0 ≤ v.intensity) :
    ∃ v ∈ addPeak tol g i hkl d bs, i ≤ v.intensity := by
  induction bs with
  | nil => exact ⟨⟨g, i, [hkl], d⟩, by simp [addPeak], le_refl i⟩
  | cons b bs ih =>
    rw [addPeak]
    by_cases hb : |b.g - g| < tol
    · rw [if_pos hb]
      refine ⟨_, List.mem_cons_self _ _, ?_⟩
      have := hbs b (List.mem_cons_self b bs)
      simp only
      linarith
    · rw [if_neg hb]
      obtain ⟨v, hv, hcv⟩ := ih (fun x hx => hbs x (List.mem_cons_of_mem b hx))
      exact ⟨v, List.mem_cons_of_mem _ hv, hcv⟩

lemma addPeak_gs_pairwise {tol g i : ℚ} {hkl : List ℤ} {d : ℚ} {bs : List Bucket}
    (hp : (bs.map Bucket.g).Pairwise (fun a b => tol ≤ |a - b|)) :
    ((addPeak tol g i hkl d bs).map Bucket.g).Pairwise (fun a b => tol ≤ |a - b|) := by
  induction bs with
  | nil => simp [addPeak]
  | cons b bs ih =>
    rw [List.map_cons, List.pairwise_cons] at hp
    obtain ⟨hb1, hb2⟩ := hp
    rw [addPeak]
    by_cases hb : |b.g - g| < tol
    · rw [if_pos hb, List.map_cons, List.pairwise_cons]
      exact ⟨hb1, hb2⟩
    · rw [if_neg hb, List.map_cons, List.pairwise_cons]
      refine ⟨?_, ih hb2⟩
      intro x hx
      rcases addPeak_g_mem hx with hx' | rfl
      · exact hb1 x hx'
      · exact le_of_not_lt hb

lemma stepPoint_nonneg {I : List ℤ → ℚ → ℚ} {is_hex : Bool} {tol : ℚ}
    {bs : List Bucket} {p : RecipPoint} (hI : ∀ hk g, 0 ≤ I hk g)
    (hbs : ∀ v ∈ bs, 0 ≤ v.intensity) :
    ∀ v ∈ stepPoint I is_hex tol bs p, 0 ≤ v.intensity := by
  rw [stepPoint]
  by_cases hg : p.g = 0
  · rw [if_pos hg]; exact hbs
  · rw [if_neg hg]; exact addPeak_intensity_nonneg (hI _ _) hbs

lemma foldl_stepPoint_nonneg {I : List ℤ → ℚ → ℚ} {is_hex : Bool} {tol : ℚ}
    {pts : List RecipPoint} {bs : List Bucket} (hI : ∀ hk g, 0 ≤ I hk g)
    (hbs : ∀ v ∈ bs, 0 ≤ v.intensity) :
    ∀ v ∈ pts.foldl (stepPoint I is_hex tol) bs, 0 ≤ v.intensity := by
  induction pts generalizing bs with
  | nil => exact hbs
  | cons p pts ih => exact ih (stepPoint_nonneg hI hbs)

lemma foldl_stepPoint_exists_ge {I : List ℤ → ℚ → ℚ} {is_hex : Bool}
    {tol c : ℚ} {pts : List RecipPoint} {bs : List Bucket}
    (hI : ∀ hk g, 0 ≤ I hk g) (hc : ∃ v ∈ bs, c ≤ v.intensity) :
    ∃ v ∈ pts.foldl (stepPoint I is_hex tol) bs, c ≤ v.intensity := by
  induction pts generalizing bs with
  | nil => exact hc
  | cons p pts ih =>
    apply ih
    rw [stepPoint]
    by_cases hg : p.g = 0
    · rw [if_pos hg]; exact hc
    · rw [if_neg hg]; exact addPeak_exists_ge (hI _ _) hc

lemma processPoints_nonneg {I : List ℤ → ℚ → ℚ} {is_hex : Bool} {tol : ℚ}
    {pts : List RecipPoint} (hI : ∀ hk g, 0 ≤ I hk g) :
    ∀ v ∈ processPoints I is_hex tol pts, 0 ≤ v.intensity :=
  foldl_stepPoint_nonneg hI (by simp)

lemma processPoints_exists_ge {I : List ℤ → ℚ → ℚ} {is_hex : Bool} {tol : ℚ}
    {pts : List RecipPoint} {p : RecipPoint} (hI : ∀ hk g, 0 ≤ I hk g)
    (hp : p ∈ pts) (hg : p.g ≠ 0) :
    ∃ v ∈ processPoints I is_hex tol pts,
      I [pyRound p.h, pyRound p.k, pyRound p.l] p.g ≤ v.intensity := by
  have hp' : p ∈ sortPoints pts :=
    ((List.perm_insertionSort ptKeyLE pts).mem_iff).mpr hp
  obtain ⟨s, t, hst⟩ := List.append_of_mem hp'
  rw [processPoints, hst, List.foldl_append, List.foldl_cons]
  have hbs0 : ∀ v ∈ s.foldl (stepPoint I is_hex tol) [], 0 ≤ v.intensity :=
    foldl_stepPoint_nonneg hI (by simp)
  apply foldl_stepPoint_exists_ge hI
  rw [stepPoint, if_neg hg]
  exact addPeak_exists_ge_self hbs0

lemma processPoints_gs_pairwise {I : List ℤ → ℚ → ℚ} {is_hex : Bool}
    {tol : ℚ} {pts : List RecipPoint} :
    ((processPoints I is_hex tol pts).map Bucket.g).Pairwise
      (fun a b => tol ≤ |a - b|) := by
  rw [processPoints]
  generalize sortPoints pts = l
  have key : ∀ (l : List RecipPoint) (bs : List Bucket),
      (bs.map Bucket.g).Pairwise (fun a b => tol ≤ |a - b|) →
      ((l.foldl (stepPoint I is_hex tol) bs).map Bucket.g).Pairwise
        (fun a b => tol ≤ |a - b|) := by
    intro l
    induction l with
    | nil => intro bs h; exact h
    | cons p l ih =>
      intro bs h
      apply ih
      rw [stepPoint]
      by_cases hg : p.g = 0
      · rw [if_pos hg]; exact h
      · rw [if_neg hg]; exact addPeak_gs_pairwise h
  exact key l [] (by simp)

lemma mem_filterBuckets {minI maxI : ℚ} {l : List Bucket} {v : Bucket} :
    v ∈ filterBuckets minI maxI l ↔ v ∈ l ∧ v.intensity / maxI * 100 > minI := by
  simp [filterBuckets, List.mem_filter]

lemma profileFromBuckets_ok_inv {buckets : List Bucket} {minI : ℚ}
    {recs : List ProfileRecord}
    (h : profileFromBuckets buckets minI = .ok recs) :
    ∃ b bs f fs, buckets = b :: bs
      ∧ filterBuckets minI (bucketsMax b bs)
          (List.insertionSort bucketLE (b :: bs)) = f :: fs
      ∧ recs = (f :: fs).map (mkRecord (bucketsMax f fs)) := by
  cases buckets with
  | nil => exact absurd h (by simp [profileFromBuckets])
  | cons b bs =>
    cases hf : filterBuckets minI (bucketsMax b bs)
        (List.insertionSort bucketLE (b :: bs)) with
    | nil =>
      rw [profileFromBuckets, hf] at h
      exact absurd h (by simp)
    | cons f fs =>
      rw [profileFromBuckets, hf] at h
      simp only [Except.ok.injEq] at h
      exact ⟨b, bs, f, fs, rfl, hf, h.symm⟩

lemma profileFromBuckets_error_of_filter_nil {b : Bucket} {bs : List Bucket}
    {minI : ℚ}
    (hf : filterBuckets minI (bucketsMax b bs)
          (List.insertionSort bucketLE (b :: bs)) = []) :
    profileFromBuckets (b :: bs) minI
      = .error (.valueError "max() arg is an empty sequence") := by
  rw [profileFromBuckets, hf]

lemma calculate_profile_data_ok_inv {table : String → Option (List (ℚ × ℚ))}
    {dwmap : String → ℚ} {I : List ℤ → ℚ → ℚ} {sites : List Site}
    {is_hex : Bool} {pts : List RecipPoint} {tol minI : ℚ}
    {recs : List ProfileRecord}
    (h : calculate_profile_data table dwmap I sites is_hex pts tol minI
          = .ok recs) :
    profileFromBuckets (processPoints I is_hex tol pts) minI = .ok recs := by
  cases hfl : flattenSites table dwmap sites with
  | error e =>
    rw [calculate_profile_data, hfl] at h
    exact absurd h (by simp)
  | ok fl =>
    rw [calculate_profile_data, hfl] at h
    exact h

/-- C2: whenever `calculate_profile_data` returns a profile and the
magnitude tolerance is positive, the returned magnitudes are strictly
ascending and every pair of them (not just adjacent ones) differs by at
least `magnitude_tolerance`. -/
theorem profile_magnitudes_ascending_and_separated
    (table : String → Option (List (ℚ × ℚ))) (dwmap : String → ℚ)
    (I : List ℤ → ℚ → ℚ) (sites : List Site) (is_hex : Bool)
    (pts : List RecipPoint) (tol minI : ℚ) (recs : List ProfileRecord)
    (htol : 0 < tol)
    (hok : calculate_profile_data table dwmap I sites is_hex pts tol minI
        = .ok recs) :
    recs.Pairwise (fun r s =>
      r.magnitude < s.magnitude ∧ tol ≤ |s.magnitude - r.magnitude|) := by
  obtain ⟨b, bs, f, fs, hbk, hf, hrecs⟩ :=
    profileFromBuckets_ok_inv (calculate_profile_data_ok_inv hok)
  have hsep : (b :: bs).Pairwise (fun u v => tol ≤ |u.g - v.g|) := by
    have h := @processPoints_gs_pairwise I is_hex tol pts
    rw [List.pairwise_map, hbk] at h
    exact h
  have hperm : List.Perm (List.insertionSort bucketLE (b :: bs)) (b :: bs) :=
    List.perm_insertionSort bucketLE (b :: bs)
  have hsep' : (List.insertionSort bucketLE (b :: bs)).Pairwise
      (fun u v => tol ≤ |u.g - v.g|) :=
    hperm.symm.pairwise hsep (fun hxy => by rwa [abs_sub_comm])
  have hsorted : (List.insertionSort bucketLE (b :: bs)).Pairwise bucketLE :=
    List.sorted_insertionSort bucketLE (b :: bs)
  have hstrict : (List.insertionSort bucketLE (b :: bs)).Pairwise
      (fun u v => u.g < v.g ∧ tol ≤ |v.g - u.g|) := by
    refine (hsorted.and hsep').imp ?_
    rintro u v ⟨hle, hsepuv⟩
    have hle' : u.g ≤ v.g := hle
    rw [abs_sub_comm] at hsepuv
    have habs : |v.g - u.g| = v.g - u.g := abs_of_nonneg (by linarith)
    rw [habs] at hsepuv ⊢
    exact ⟨by linarith, hsepuv⟩
  have hfil : (filterBuckets minI (bucketsMax b bs)
      (List.insertionSort bucketLE (b :: bs))).Pairwise
      (fun u v => u.g < v.g ∧ tol ≤ |v.g - u.g|) :=
    hstrict.sublist (List.filter_sublist _)
  rw [hf] at hfil
  rw [hrecs, List.pairwise_map]
  exact hfil

/-- C1: for any input enumerating at least one reciprocal point of nonzero
magnitude with (physically) nonnegative intensities, a positive intensity
at one such point, and `minimum_intensity < 100`, `calculate_profile_data`
succeeds and the maximum intensity across its records is exactly 100: every
bucket is rescaled by `100 / max`, and the maximal bucket survives the
filter. -/
theorem profile_max_intensity_is_100
    (table : String → Option (List (ℚ × ℚ))) (dwmap : String → ℚ)
    (I : List ℤ → ℚ → ℚ) (sites : List Site) (is_hex : Bool)
    (pts : List RecipPoint) (tol minI : ℚ) (fl : List FlatSpecies)
    (p : RecipPoint)
    (hfl : flattenSites table dwmap sites = .ok fl)
    (hI : ∀ hk g, 0 ≤ I hk g)
    (hp : p ∈ pts) (hg : p.g ≠ 0)
    (hpos : 0 < I [pyRound p.h, pyRound p.k, pyRound p.l] p.g)
    (hmin : minI < 100) :
    ∃ recs, calculate_profile_data table dwmap I sites is_hex pts tol minI
        = .ok recs
      ∧ (∃ r ∈ recs, r.intensity = 100)
      ∧ ∀ r ∈ recs, r.intensity ≤ 100 := by
  obtain ⟨w, hw, hwge⟩ := processPoints_exists_ge hI hp hg
  cases hbk : processPoints I is_hex tol pts with
  | nil => rw [hbk] at hw; cases hw
  | cons b bs =>
    rw [hbk] at hw
    have hmax_pos : 0 < bucketsMax b bs :=
      lt_of_lt_of_le hpos (le_trans hwge (bucketsMax_ge hw))
    have hnonneg : ∀ v ∈ b :: bs, 0 ≤ v.intensity := by
      rw [← hbk]; exact processPoints_nonneg hI
    obtain ⟨m, hm, hmeq⟩ := bucketsMax_attained b bs
    have hmsort : m ∈ List.insertionSort bucketLE (b :: bs) :=
      ((List.perm_insertionSort bucketLE (b :: bs)).mem_iff).mpr hm
    have hmpass : m.intensity / bucketsMax b bs * 100 > minI := by
      rw [hmeq, div_self (ne_of_gt hmax_pos), one_mul]
      exact hmin
    have hmfil : m ∈ filterBuckets minI (bucketsMax b bs)
        (List.insertionSort bucketLE (b :: bs)) :=
      mem_filterBuckets.mpr ⟨hmsort, hmpass⟩
    cases hf : filterBuckets minI (bucketsMax b bs)
        (List.insertionSort bucketLE (b :: bs)) with
    | nil => rw [hf] at hmfil; cases hmfil
    | cons f fs =>
      have hfsub : ∀ v ∈ f :: fs, v ∈ b :: bs := by
        intro v hv
        rw [← hf] at hv
        exact ((List.perm_insertionSort bucketLE (b :: bs)).mem_iff).mp
          (mem_filterBuckets.mp hv).1
      have hmaxY_le : bucketsMax f fs ≤ bucketsMax b bs := by
        obtain ⟨v, hv, hveq⟩ := bucketsMax_attained f fs
        exact hveq ▸ bucketsMax_ge (hfsub v hv)
      have hmaxY_ge : bucketsMax b bs ≤ bucketsMax f fs := by
        rw [← hmeq]
        exact bucketsMax_ge (by rw [hf] at hmfil; exact hmfil)
      have hmaxY : bucketsMax f fs = bucketsMax b bs :=
        le_antisymm hmaxY_le hmaxY_ge
      refine ⟨(f :: fs).map (mkRecord (bucketsMax f fs)), ?_, ?_, ?_⟩
      · rw [calculate_profile_data, hfl, hbk, profileFromBuckets, hf]
      · refine ⟨mkRecord (bucketsMax f fs) m,
          List.mem_map_of_mem _ (by rw [hf] at hmfil; exact hmfil), ?_⟩
        show m.intensity / bucketsMax f fs * 100 = 100
        rw [hmaxY, hmeq, div_self (ne_of_gt hmax_pos), one_mul]
      · intro r hr
        obtain ⟨v, hv, rfl⟩ := List.mem_map.mp hr
        show v.intensity / bucketsMax f fs * 100 ≤ 100
        rw [hmaxY]
        have h1 : v.intensity ≤ bucketsMax b bs := bucketsMax_ge (hfsub v hv)
        have h2 : v.intensity / bucketsMax b bs ≤ 1 :=
          (div_le_one hmax_pos).mpr h1
        linarith

lemma filterBuckets_eq_nil_of_high_threshold {b : Bucket} {bs : List Bucket}
    {minI : ℚ} (hnonneg : ∀ v ∈ b :: bs, 0 ≤ v.intensity)
    (hmin : 100 ≤ minI) :
    filterBuckets minI (bucketsMax b bs)
      (List.insertionSort bucketLE (b :: bs)) = [] := by
  rw [filterBuckets, List.filter_eq_nil_iff]
  intro v hv
  have hv' : v ∈ b :: bs :=
    ((List.perm_insertionSort bucketLE (b :: bs)).mem_iff).mp hv
  simp only [decide_eq_true_eq, not_lt, gt_iff_lt]
  have h1 : v.intensity ≤ bucketsMax b bs := bucketsMax_ge hv'
  have h0 : 0 ≤ bucketsMax b bs :=
    le_trans (hnonneg b (List.mem_cons_self b bs)) (le_pyMax_left _ _)
  rcases lt_or_eq_of_le h0 with hpos | hzero
  · have : v.intensity / bucketsMax b bs ≤ 1 := (div_le_one hpos).mpr h1
    linarith
  · rw [← hzero, div_zero, zero_mul]
    linarith

/-- C10: with `minimum_intensity ≥ 100` and at least one nonzero-magnitude
reflection of (physically) nonnegative intensity, no bucket passes the
strict rescaled filter — even the maximal bucket's rescaled intensity of
exactly 100 fails `> minimum_intensity` — so the final `max` is applied to
an empty list and the call raises instead of returning an empty profile. -/
theorem profile_high_threshold_errors
    (table : String → Option (List (ℚ × ℚ))) (dwmap : String → ℚ)
    (I : List ℤ → ℚ → ℚ) (sites : List Site) (is_hex : Bool)
    (pts : List RecipPoint) (tol minI : ℚ) (fl : List FlatSpecies)
    (p : RecipPoint)
    (hfl : flattenSites table dwmap sites = .ok fl)
    (hI : ∀ hk g, 0 ≤ I hk g)
    (hp : p ∈ pts) (hg : p.g ≠ 0)
    (hmin : 100 ≤ minI) :
    calculate_profile_data table dwmap I sites is_hex pts tol minI
      = .error (.valueError "max() arg is an empty sequence") := by
  obtain ⟨w, hw, _⟩ := processPoints_exists_ge hI hp hg
  cases hbk : processPoints I is_hex tol pts with
  | nil => rw [hbk] at hw; cases hw
  | cons b bs =>
    have hnonneg : ∀ v ∈ b :: bs, 0 ≤ v.intensity := by
      rw [← hbk]; exact processPoints_nonneg hI
    rw [calculate_profile_data, hfl, hbk]
    exact profileFromBuckets_error_of_filter_nil
      (filterBuckets_eq_nil_of_high_threshold hnonneg hmin)

lemma processPoints_nil_of_all_zero {I : List ℤ → ℚ → ℚ} {is_hex : Bool}
    {tol : ℚ} {pts : List RecipPoint} (hz : ∀ p ∈ pts, p.g = 0) :
    processPoints I is_hex tol pts = [] := by
  rw [processPoints]
  have hz' : ∀ p ∈ sortPoints pts, p.g = 0 := fun p hp =>
    hz p (((List.perm_insertionSort ptKeyLE pts).mem_iff).mp hp)
  generalize sortPoints pts = l at hz'
  induction l with
  | nil => rfl
  | cons p l ih =>
    rw [List.foldl_cons, stepPoint, if_pos (hz' p (List.mem_cons_self p l))]
    exact ih (fun q hq => hz' q (List.mem_cons_of_mem p hq))

/-- C6: when no nonzero-magnitude reciprocal point is enumerated (so zero
reflections are retained), `calculate_profile_data` fails at the
normalisation step: `max` of the empty bucket collection raises, so the
call reports an error rather than propagating NaN or returning a value. -/
theorem profile_no_reflections_errors
    (table : String → Option (List (ℚ × ℚ))) (dwmap : String → ℚ)
    (I : List ℤ → ℚ → ℚ) (sites : List Site) (is_hex : Bool)
    (pts : List RecipPoint) (tol minI : ℚ) (fl : List FlatSpecies)
    (hfl : flattenSites table dwmap sites = .ok fl)
    (hz : ∀ p ∈ pts, p.g = 0) :
    calculate_profile_data table dwmap I sites is_hex pts tol minI
      = .error (.valueError "max() arg is an empty sequence") := by
  rw [calculate_profile_data, hfl, processPoints_nil_of_all_zero hz,
    profileFromBuckets]

lemma flattenSpecies_error {table : String → Option (List (ℚ × ℚ))}
    {dwmap : String → ℚ} {fc : List ℚ} {l : List (Species × ℚ)}
    (h : ∃ q ∈ l, table (q : Species × ℚ).1.symbol = none) :
    ∃ sym, table sym = none ∧ (∃ q ∈ l, (q : Species × ℚ).1.symbol = sym)
      ∧ flattenSpecies table dwmap fc l
          = .error (.valueError (unknownElementMsg sym)) := by
  induction l with
  | nil => obtain ⟨q, hq, _⟩ := h; cases hq
  | cons a l ih =>
    obtain ⟨sp, occu⟩ := a
    by_cases ha : table sp.symbol = none
    · exact ⟨sp.symbol, ha,
        ⟨(sp, occu), List.mem_cons_self _ _, rfl⟩,
        by rw [flattenSpecies, ha]⟩
    · have h' : ∃ q ∈ l, table (q : Species × ℚ).1.symbol = none := by
        obtain ⟨q, hq, hqn⟩ := h
        rcases List.mem_cons.mp hq with rfl | hq
        · exact absurd hqn ha
        · exact ⟨q, hq, hqn⟩
      obtain ⟨sym, h1, ⟨q, hq, h2⟩, h3⟩ := ih h'
      refine ⟨sym, h1, ⟨q, List.mem_cons_of_mem _ hq, h2⟩, ?_⟩
      cases hc : table sp.symbol with
      | none => exact absurd hc ha
      | some c => rw [flattenSpecies, hc, h3]

lemma flattenSpecies_ok {table : String → Option (List (ℚ × ℚ))}
    {dwmap : String → ℚ} {fc : List ℚ} {l : List (Species × ℚ)}
    (h : ∀ q ∈ l, table (q : Species × ℚ).1.symbol ≠ none) :
    ∃ out, flattenSpecies table dwmap fc l = .ok out := by
  induction l with
  | nil => exact ⟨[], rfl⟩
  | cons a l ih =>
    obtain ⟨sp, occu⟩ := a
    cases hc : table sp.symbol with
    | none => exact absurd hc (h (sp, occu) (List.mem_cons_self _ _))
    | some c =>
      obtain ⟨out, hout⟩ := ih (fun q hq => h q (List.mem_cons_of_mem _ hq))
      exact ⟨_, by rw [flattenSpecies, hc, hout]⟩

lemma flattenSites_error {table : String → Option (List (ℚ × ℚ))}
    {dwmap : String → ℚ} {sites : List Site}
    (h : ∃ s ∈ sites, ∃ q ∈ s.species_and_occu,
      table (q : Species × ℚ).1.symbol = none) :
    ∃ sym, table sym = none
      ∧ (∃ s ∈ sites, ∃ q ∈ s.species_and_occu,
          (q : Species × ℚ).1.symbol = sym)
      ∧ flattenSites table dwmap sites
          = .error (.valueError (unknownElementMsg sym)) := by
  induction sites with
  | nil => obtain ⟨s, hs, _⟩ := h; cases hs
  | cons s sites ih =>
    by_cases hsp : ∃ q ∈ s.species_and_occu, table (q : Species × ℚ).1.symbol = none
    · obtain ⟨sym, h1, ⟨q, hq, h2⟩, h3⟩ := flattenSpecies_error hsp
      exact ⟨sym, h1, ⟨s, List.mem_cons_self _ _, q, hq, h2⟩,
        by rw [flattenSites, h3]⟩
    · have h' : ∃ t ∈ sites, ∃ q ∈ t.species_and_occu,
          table (q : Species × ℚ).1.symbol = none := by
        obtain ⟨t, ht, hq⟩ := h
        rcases List.mem_cons.mp ht with rfl | ht
        · exact absurd hq hsp
        · exact ⟨t, ht, hq⟩
      obtain ⟨sym, h1, ⟨t, ht, hq⟩, h3⟩ := ih h'
      refine ⟨sym, h1, ⟨t, List.mem_cons_of_mem _ ht, hq⟩, ?_⟩
      push_neg at hsp
      obtain ⟨head, hc⟩ := flattenSpecies_ok hsp
      rw [flattenSites, hc, h3]

/-- C5: a structure containing a species whose element symbol is absent
from the atomic-scattering-parameter table makes both
`calculate_profile_data` and `calculate_ed_data` fail with the
unknown-element error, and the error message names the missing symbol. -/
theorem unknown_element_raises
    (table : String → Option (List (ℚ × ℚ))) (dwmap : String → ℚ)
    (I : List ℤ → ℚ → ℚ) (Ikin : EdPoint → ℚ → ℚ)
    (sqrtF arcsinF cosF : ℚ → ℚ) (sites : List Site) (is_hex : Bool)
    (pts : List RecipPoint) (edpts : List EdPoint)
    (tol minI wavelength maxExc : ℚ) (withDirect : Bool)
    (s : Site) (sp : Species) (occu : ℚ)
    (hs : s ∈ sites) (hsp : (sp, occu) ∈ s.species_and_occu)
    (hmissing : table sp.symbol = none) :
    ∃ sym, table sym = none
      ∧ (∃ t ∈ sites, ∃ q ∈ t.species_and_occu,
          (q : Species × ℚ).1.symbol = sym)
      ∧ calculate_profile_data table dwmap I sites is_hex pts tol minI
          = .error (.valueError (unknownElementMsg sym))
      ∧ calculate_ed_data sqrtF arcsinF cosF table dwmap sites Ikin
          wavelength maxExc edpts withDirect
          = .error (.valueError (unknownElementMsg sym)) := by
  obtain ⟨sym, h1, h2, h3⟩ :=
    @flattenSites_error table dwmap sites ⟨s, hs, (sp, occu), hsp, hmissing⟩
  refine ⟨sym, h1, h2, ?_, ?_⟩
  · rw [calculate_profile_data, h3]
  · rw [calculate_ed_data, get_kinematical_intensities, h3]

/-- C8: for the same inputs, the record set returned by
`calculate_profile_data` is antitone in `minimum_intensity` — every record
returned with the higher threshold `m2` is also returned with any lower
threshold `m1` (in particular with `minimum_intensity = 0`), because the
filter keeps a bucket exactly when its intensity rescaled to the 0–100
scale strictly exceeds the threshold. -/
theorem profile_records_antitone
    (table : String → Option (List (ℚ × ℚ))) (dwmap : String → ℚ)
    (I : List ℤ → ℚ → ℚ) (sites : List Site) (is_hex : Bool)
    (pts : List RecipPoint) (tol m1 m2 : ℚ) (l1 l2 : List ProfileRecord)
    (hI : ∀ hk g, 0 ≤ I hk g) (hm : m1 ≤ m2)
    (h1 : calculate_profile_data table dwmap I sites is_hex pts tol m1 = .ok l1)
    (h2 : calculate_profile_data table dwmap I sites is_hex pts tol m2 = .ok l2) :
    ∀ r ∈ l2, r ∈ l1 := by
  obtain ⟨b, bs, f2, fs2, hbk2, hf2, hrecs2⟩ :=
    profileFromBuckets_ok_inv (calculate_profile_data_ok_inv h2)
  obtain ⟨b', bs', f1, fs1, hbk1, hf1, hrecs1⟩ :=
    profileFromBuckets_ok_inv (calculate_profile_data_ok_inv h1)
  rw [hbk2] at hbk1
  injection hbk1 with hbb hbsbs
  subst hbb
  subst hbsbs
  have hnn : ∀ v ∈ b :: bs, 0 ≤ v.intensity := by
    rw [← hbk2]; exact processPoints_nonneg hI
  have hM0 : 0 ≤ bucketsMax b bs :=
    le_trans (hnn b (List.mem_cons_self b bs)) (le_pyMax_left _ _)
  have hmemsort : ∀ v ∈ List.insertionSort bucketLE (b :: bs), v ∈ b :: bs :=
    fun v hv => ((List.perm_insertionSort bucketLE (b :: bs)).mem_iff).mp hv
  rcases lt_or_eq_of_le hM0 with hMpos | hMzero
  · -- positive maximum: both runs rescale by the same global maximum
    have hf2mem : f2 ∈ filterBuckets m2 (bucketsMax b bs)
        (List.insertionSort bucketLE (b :: bs)) := by
      rw [hf2]; exact List.mem_cons_self f2 fs2
    obtain ⟨hf2sort, hf2pass⟩ := mem_filterBuckets.mp hf2mem
    have hm2lt : m2 < 100 := by
      have hle : f2.intensity ≤ bucketsMax b bs :=
        bucketsMax_ge (hmemsort f2 hf2sort)
      have : f2.intensity / bucketsMax b bs ≤ 1 := (div_le_one hMpos).mpr hle
      have := hf2pass
      simp only [gt_iff_lt] at this
      linarith
    obtain ⟨mx, hmx, hmxeq⟩ := bucketsMax_attained b bs
    have hmxsort : mx ∈ List.insertionSort bucketLE (b :: bs) :=
      ((List.perm_insertionSort bucketLE (b :: bs)).mem_iff).mpr hmx
    have hmxval : mx.intensity / bucketsMax b bs * 100 = 100 := by
      rw [hmxeq, div_self (ne_of_gt hMpos), one_mul]
    have hmxpass1 : mx ∈ filterBuckets m1 (bucketsMax b bs)
        (List.insertionSort bucketLE (b :: bs)) :=
      mem_filterBuckets.mpr ⟨hmxsort, by rw [hmxval]; linarith⟩
    have hmxpass2 : mx ∈ filterBuckets m2 (bucketsMax b bs)
        (List.insertionSort bucketLE (b :: bs)) :=
      mem_filterBuckets.mpr ⟨hmxsort, by rw [hmxval]; linarith⟩
    have hmaxY : ∀ f fs, filterBuckets m1 (bucketsMax b bs)
          (List.insertionSort bucketLE (b :: bs)) = f :: fs
          ∨ filterBuckets m2 (bucketsMax b bs)
            (List.insertionSort bucketLE (b :: bs)) = f :: fs →
        mx ∈ f :: fs → bucketsMax f fs = bucketsMax b bs := by
      intro f fs hcase hmxin
      have hsub : ∀ v ∈ f :: fs, v ∈ b :: bs := by
        intro v hv
        rcases hcase with hc | hc
        · rw [← hc] at hv
          exact hmemsort v (mem_filterBuckets.mp hv).1
        · rw [← hc] at hv
          exact hmemsort v (mem_filterBuckets.mp hv).1
      refine le_antisymm ?_ ?_
      · obtain ⟨v, hv, hveq⟩ := bucketsMax_attained f fs
        exact hveq ▸ bucketsMax_ge (hsub v hv)
      · exact hmxeq ▸ bucketsMax_ge hmxin
    have hmaxY1 : bucketsMax f1 fs1 = bucketsMax b bs :=
      hmaxY f1 fs1 (Or.inl hf1) (by rw [← hf1]; exact hmxpass1)
    have hmaxY2 : bucketsMax f2 fs2 = bucketsMax b bs :=
      hmaxY f2 fs2 (Or.inr hf2) (by rw [← hf2]; exact hmxpass2)
    intro r hr
    rw [hrecs2] at hr
    obtain ⟨v, hv, rfl⟩ := List.mem_map.mp hr
    have hvfil2 : v ∈ filterBuckets m2 (bucketsMax b bs)
        (List.insertionSort bucketLE (b :: bs)) := by rw [hf2]; exact hv
    obtain ⟨hvsort, hvpass2⟩ := mem_filterBuckets.mp hvfil2
    have hvpass1 : v.intensity / bucketsMax b bs * 100 > m1 := by
      simp only [gt_iff_lt] at hvpass2 ⊢
      linarith
    have hvfil1 : v ∈ filterBuckets m1 (bucketsMax b bs)
        (List.insertionSort bucketLE (b :: bs)) :=
      mem_filterBuckets.mpr ⟨hvsort, hvpass1⟩
    rw [hf1] at hvfil1
    rw [hrecs1]
    refine List.mem_map.mpr ⟨v, hvfil1, ?_⟩
    rw [hmaxY1, hmaxY2]
  · -- zero maximum: all intensities vanish and both filters act identically
    have hallz : ∀ v ∈ b :: bs, v.intensity = 0 := fun v hv =>
      le_antisymm (hMzero ▸ bucketsMax_ge hv) (hnn v hv)
    have hf2mem : f2 ∈ filterBuckets m2 (bucketsMax b bs)
        (List.insertionSort bucketLE (b :: bs)) := by
      rw [hf2]; exact List.mem_cons_self f2 fs2
    obtain ⟨hf2sort, hf2pass⟩ := mem_filterBuckets.mp hf2mem
    have hm2neg : m2 < 0 := by
      rw [hallz f2 (hmemsort f2 hf2sort)] at hf2pass
      rw [zero_div, zero_mul] at hf2pass
      exact hf2pass
    have hfilall : ∀ m : ℚ, m < 0 → filterBuckets m (bucketsMax b bs)
        (List.insertionSort bucketLE (b :: bs))
        = List.insertionSort bucketLE (b :: bs) := by
      intro m hmneg
      rw [filterBuckets, List.filter_eq_self]
      intro v hv
      rw [hallz v (hmemsort v hv), zero_div, zero_mul]
      simpa using hmneg
    have hs2 := hfilall m2 hm2neg
    have hs1 := hfilall m1 (lt_of_le_of_lt hm hm2neg)
    rw [hs2] at hf2
    rw [hs1] at hf1
    rw [hf2] at hf1
    injection hf1 with hff hfsfs
    subst hff
    subst hfsfs
    intro r hr
    rw [hrecs1]
    rw [hrecs2] at hr
    exact hr

lemma ptKeyLE_iff (a b : RecipPoint) :
    ptKeyLE a b ↔ (a.g < b.g ∨ (a.g = b.g ∧ (b.h < a.h ∨ (a.h = b.h ∧
      (b.k < a.k ∨ (a.k = b.k ∧ b.l ≤ a.l)))))) := by
  simp only [ptKeyLE, ptKey, Prod.Lex.le_iff, neg_lt_neg_iff, neg_inj,
    neg_le_neg_iff]

/-- C9: `calculate_profile_data` processes the enumerated points in a
total, deterministic order — primarily by ascending magnitude, with ties
broken by descending h, then descending k, then descending l — and the
accumulation is exactly the fold over that sorted sequence. -/
theorem points_processed_in_deterministic_order (I : List ℤ → ℚ → ℚ)
    (is_hex : Bool) (tol : ℚ) (pts : List RecipPoint) :
    List.Perm (sortPoints pts) pts
    ∧ (sortPoints pts).Pairwise (fun a b =>
        a.g < b.g ∨ (a.g = b.g ∧ (b.h < a.h ∨ (a.h = b.h ∧
          (b.k < a.k ∨ (a.k = b.k ∧ b.l ≤ a.l))))))
    ∧ processPoints I is_hex tol pts
        = (sortPoints pts).foldl (stepPoint I is_hex tol) [] := by
  refine ⟨List.perm_insertionSort ptKeyLE pts, ?_, rfl⟩
  have h : (sortPoints pts).Pairwise ptKeyLE :=
    List.sorted_insertionSort ptKeyLE pts
  exact h.imp (fun hab => (ptKeyLE_iff _ _).mp hab)

lemma addPeak_merge_first {tol g : ℚ} (i : ℚ) (hkl : List ℤ) (d : ℚ)
    (bs1 bs2 : List Bucket) (b : Bucket)
    (hmiss : ∀ v ∈ bs1, ¬(|v.g - g| < tol)) (hhit : |b.g - g| < tol) :
    addPeak tol g i hkl d (bs1 ++ b :: bs2)
      = bs1 ++ { b with intensity := b.intensity + i,
                        fam := b.fam ++ [hkl] } :: bs2 := by
  induction bs1 with
  | nil => rw [List.nil_append, addPeak, if_pos hhit, List.nil_append]
  | cons x bs1 ih =>
    rw [List.cons_append, addPeak,
      if_neg (hmiss x (List.mem_cons_self x bs1)), List.cons_append,
      ih (fun v hv => hmiss v (List.mem_cons_of_mem x hv))]

lemma sortPoints_pair (p1 p2 : RecipPoint) :
    sortPoints [p1, p2] = if ptKeyLE p1 p2 then [p1, p2] else [p2, p1] := by
  simp [sortPoints, List.insertionSort, List.orderedInsert]

lemma processPoints_pair_merge {I : List ℤ → ℚ → ℚ} {is_hex : Bool}
    {tol : ℚ} {p1 p2 : RecipPoint} (hg1 : p1.g ≠ 0) (hg2 : p2.g ≠ 0)
    (hnear : |p1.g - p2.g| < tol) :
    ∃ bm, processPoints I is_hex tol [p1, p2] = [bm]
      ∧ bm.intensity
          = I [pyRound p1.h, pyRound p1.k, pyRound p1.l] p1.g
            + I [pyRound p2.h, pyRound p2.k, pyRound p2.l] p2.g := by
  have hnear' : |p2.g - p1.g| < tol := by rwa [abs_sub_comm]
  rw [processPoints, sortPoints_pair]
  by_cases hle : ptKeyLE p1 p2
  · rw [if_pos hle]
    simp only [List.foldl_cons, List.foldl_nil, stepPoint, if_neg hg1,
      if_neg hg2, addPeak]
    rw [if_pos hnear]
    exact ⟨_, rfl, rfl⟩
  · rw [if_neg hle]
    simp only [List.foldl_cons, List.foldl_nil, stepPoint, if_neg hg1,
      if_neg hg2, addPeak]
    rw [if_pos hnear']
    exact ⟨_, rfl, add_comm _ _⟩

lemma processPoints_pair_separate {I : List ℤ → ℚ → ℚ} {is_hex : Bool}
    {tol : ℚ} {p1 p2 : RecipPoint} (hg1 : p1.g ≠ 0) (hg2 : p2.g ≠ 0)
    (hfar : ¬(|p1.g - p2.g| < tol)) :
    ∃ c1 c2, processPoints I is_hex tol [p1, p2] = [c1, c2]
      ∧ c1.intensity + c2.intensity
          = I [pyRound p1.h, pyRound p1.k, pyRound p1.l] p1.g
            + I [pyRound p2.h, pyRound p2.k, pyRound p2.l] p2.g := by
  have hfar' : ¬(|p2.g - p1.g| < tol) := by rwa [abs_sub_comm]
  rw [processPoints, sortPoints_pair]
  by_cases hle : ptKeyLE p1 p2
  · rw [if_pos hle]
    simp only [List.foldl_cons, List.foldl_nil, stepPoint, if_neg hg1,
      if_neg hg2, addPeak]
    rw [if_neg hfar]
    exact ⟨_, _, rfl, rfl⟩
  · rw [if_neg hle]
    simp only [List.foldl_cons, List.foldl_nil, stepPoint, if_neg hg1,
      if_neg hg2, addPeak]
    rw [if_neg hfar']
    exact ⟨_, _, rfl, add_comm _ _⟩

/-- C3: a reflection whose magnitude lies within `magnitude_tolerance` of
an already-recorded bucket magnitude is merged into the first such bucket —
its intensity is added to that bucket's accumulator and its hkl appended to
that bucket's family — otherwise a fresh bucket keyed by its magnitude is
appended; consequently, two reflections separated by less than the
tolerance yield one merged bucket whose pre-rescaling intensity is the sum
of the two bucket intensities obtained under a tiny tolerance. -/
theorem merge_within_tolerance_accumulates :
    (∀ (tol g i : ℚ) (hkl : List ℤ) (d : ℚ) (bs1 bs2 : List Bucket)
        (b : Bucket), (∀ v ∈ bs1, ¬(|v.g - g| < tol)) → |b.g - g| < tol →
        addPeak tol g i hkl d (bs1 ++ b :: bs2)
          = bs1 ++ { b with intensity := b.intensity + i,
                            fam := b.fam ++ [hkl] } :: bs2)
    ∧ (∀ (tol g i : ℚ) (hkl : List ℤ) (d : ℚ) (bs : List Bucket),
        (∀ v ∈ bs, ¬(|v.g - g| < tol)) →
        addPeak tol g i hkl d bs = bs ++ [⟨g, i, [hkl], d⟩])
    ∧ (∀ (I : List ℤ → ℚ → ℚ) (is_hex : Bool) (tolBig tolTiny : ℚ)
        (p1 p2 : RecipPoint), p1.g ≠ 0 → p2.g ≠ 0 →
        |p1.g - p2.g| < tolBig → ¬(|p1.g - p2.g| < tolTiny) →
        ∃ bm c1 c2, processPoints I is_hex tolBig [p1, p2] = [bm]
          ∧ processPoints I is_hex tolTiny [p1, p2] = [c1, c2]
          ∧ bm.intensity = c1.intensity + c2.intensity) := by
  refine ⟨fun tol g i hkl d bs1 bs2 b hmiss hhit =>
      addPeak_merge_first i hkl d bs1 bs2 b hmiss hhit,
    fun tol g i hkl d bs hmiss => addPeak_eq_of_no_match i hkl d hmiss, ?_⟩
  intro I is_hex tolBig tolTiny p1 p2 hg1 hg2 hnear hfar
  obtain ⟨bm, hbm, hbmi⟩ := processPoints_pair_merge hg1 hg2 hnear
  obtain ⟨c1, c2, hc, hci⟩ := processPoints_pair_separate hg1 hg2 hfar
  exact ⟨bm, c1, c2, hbm, hc, by rw [hbmi, hci]⟩


/-- Witness instantiating `profile_max_intensity_is_100` at a concrete
one-site, one-reflection input. -/
theorem profile_max_intensity_is_100_witness :
    ∃ recs, calculate_profile_data
        (fun s => if s = "Si" then some [((1 : ℚ), 2)] else none) (fun _ => 0)
        (fun _ _ => 1) [⟨[(⟨14, "Si"⟩, 1)], [0, 0, 0]⟩] false
        [⟨1, 0, 0, 1⟩] 1 0 = .ok recs
      ∧ (∃ r ∈ recs, r.intensity = 100) ∧ ∀ r ∈ recs, r.intensity ≤ 100 :=
  profile_max_intensity_is_100
    (fun s => if s = "Si" then some [((1 : ℚ), 2)] else none) (fun _ => 0)
    (fun _ _ => 1) [⟨[(⟨14, "Si"⟩, 1)], [0, 0, 0]⟩] false [⟨1, 0, 0, 1⟩] 1 0
    [⟨14, [(1, 2)], 0, [0, 0, 0], 1⟩] ⟨1, 0, 0, 1⟩ (by simp [flattenSites,
      flattenSpecies]) (fun _ _ => zero_le_one) (List.mem_singleton.mpr rfl)
    one_ne_zero zero_lt_one (by norm_num)

/-- Witness instantiating `profile_magnitudes_ascending_and_separated` at a
concrete two-reflection input. -/
theorem profile_magnitudes_witness :
    (0 : ℚ) < 1
    ∧ ([⟨1, 100, [[1, 0, 0]]⟩, ⟨2, 100, [[2, 0, 0]]⟩] :
        List ProfileRecord).Pairwise (fun r s =>
          r.magnitude < s.magnitude ∧ 1 ≤ |s.magnitude - r.magnitude|) :=
  ⟨zero_lt_one,
    profile_magnitudes_ascending_and_separated
      (fun s => if s = "Si" then some [((1 : ℚ), 2)] else none) (fun _ => 0)
      (fun _ _ => 1) [⟨[(⟨14, "Si"⟩, 1)], [0, 0, 0]⟩] false
      [⟨1, 0, 0, 1⟩, ⟨2, 0, 0, 2⟩] 1 0
      [⟨1, 100, [[1, 0, 0]]⟩, ⟨2, 100, [[2, 0, 0]]⟩] zero_lt_one (by
        simp [calculate_profile_data, flattenSites, flattenSpecies,
          processPoints, sortPoints, List.insertionSort, List.orderedInsert,
          stepPoint, addPeak, hexRelabel, pyRound, profileFromBuckets,
          filterBuckets, bucketsMax, pyMax, mkRecord, get_unique_families,
          bucketLE, ptKeyLE, ptKey, Prod.Lex.le_iff]
        norm_num [bucketLE, mkRecord, pyMax, List.filter,
          get_unique_families])⟩

/-- Witness instantiating each part of
`merge_within_tolerance_accumulates` at concrete inputs. -/
theorem merge_within_tolerance_witness :
    (addPeak 1 (3 / 2) 5 [1, 0, 0] (2 / 3)
        ([⟨0, 3, [[0, 0, 1]], 1⟩] ++ ⟨1, 4, [[1, 1, 1]], 1⟩ :: [])
      = [⟨0, 3, [[0, 0, 1]], 1⟩]
        ++ (⟨1, 4 + 5, [[1, 1, 1]] ++ [[1, 0, 0]], 1⟩ : Bucket) :: [])
    ∧ (addPeak 1 2 5 [1, 0, 0] (2 / 3) [⟨0, 3, [[0, 0, 1]], 1⟩]
        = [⟨0, 3, [[0, 0, 1]], 1⟩] ++ [⟨2, 5, [[1, 0, 0]], 2 / 3⟩])
    ∧ (∃ bm c1 c2,
        processPoints (fun _ g => |g|) false 1
            [⟨1, 0, 0, 1⟩, ⟨2, 0, 0, 101 / 100⟩] = [bm]
        ∧ processPoints (fun _ g => |g|) false (1 / 100)
            [⟨1, 0, 0, 1⟩, ⟨2, 0, 0, 101 / 100⟩] = [c1, c2]
        ∧ bm.intensity = c1.intensity + c2.intensity) :=
  ⟨merge_within_tolerance_accumulates.1 1 (3 / 2) 5 [1, 0, 0] (2 / 3)
      [⟨0, 3, [[0, 0, 1]], 1⟩] [] ⟨1, 4, [[1, 1, 1]], 1⟩
      (by norm_num [abs_of_nonneg]) (by norm_num [abs_of_nonneg]),
    merge_within_tolerance_accumulates.2.1 1 2 5 [1, 0, 0] (2 / 3)
      [⟨0, 3, [[0, 0, 1]], 1⟩] (by norm_num [abs_of_nonneg]),
    merge_within_tolerance_accumulates.2.2 (fun _ g => |g|) false 1 (1 / 100)
      ⟨1, 0, 0, 1⟩ ⟨2, 0, 0, 101 / 100⟩ (by norm_num) (by norm_num)
      (by norm_num [abs_of_nonneg]) (by norm_num [abs_of_nonneg])⟩

/-- Witness instantiating `unknown_element_raises` at a structure with the
untabulated element symbol Xx. -/
theorem unknown_element_witness :
    ∃ sym, (if sym = "Si" then some [((1 : ℚ), (2 : ℚ))] else none) = none
      ∧ (∃ t ∈ [(⟨[(⟨5, "Xx"⟩, 1)], [0, 0, 0]⟩ : Site)],
          ∃ q ∈ t.species_and_occu, (q : Species × ℚ).1.symbol = sym)
      ∧ calculate_profile_data
          (fun s => if s = "Si" then some [((1 : ℚ), 2)] else none)
          (fun _ => 0) (fun _ _ => 1) [⟨[(⟨5, "Xx"⟩, 1)], [0, 0, 0]⟩] false
          [⟨1, 0, 0, 1⟩] 1 0
          = .error (.valueError (unknownElementMsg sym))
      ∧ calculate_ed_data (fun q => q) (fun q => q) (fun _ => 1)
          (fun s => if s = "Si" then some [((1 : ℚ), 2)] else none)
          (fun _ => 0) [⟨[(⟨5, "Xx"⟩, 1)], [0, 0, 0]⟩] (fun _ _ => 1)
          (1 / 40) (1 / 10) [⟨[1, 0, 0], 1, 0, 0, 1⟩] true
          = .error (.valueError (unknownElementMsg sym)) :=
  unknown_element_raises
    (fun s => if s = "Si" then some [((1 : ℚ), 2)] else none) (fun _ => 0)
    (fun _ _ => 1) (fun _ _ => 1) (fun q => q) (fun q => q) (fun _ => 1)
    [⟨[(⟨5, "Xx"⟩, 1)], [0, 0, 0]⟩] false [⟨1, 0, 0, 1⟩]
    [⟨[1, 0, 0], 1, 0, 0, 1⟩] 1 0 (1 / 40) (1 / 10) true
    ⟨[(⟨5, "Xx"⟩, 1)], [0, 0, 0]⟩ ⟨5, "Xx"⟩ 1
    (List.mem_singleton.mpr rfl) (List.mem_singleton.mpr rfl) (by simp)

/-- Witness instantiating `profile_no_reflections_errors` at an input whose
only enumerated point has magnitude zero. -/
theorem profile_no_reflections_witness :
    calculate_profile_data
      (fun s => if s = "Si" then some [((1 : ℚ), 2)] else none) (fun _ => 0)
      (fun _ _ => 1) [⟨[(⟨14, "Si"⟩, 1)], [0, 0, 0]⟩] false
      [⟨0, 0, 0, 0⟩] 1 0
      = .error (.valueError "max() arg is an empty sequence") :=
  profile_no_reflections_errors
    (fun s => if s = "Si" then some [((1 : ℚ), 2)] else none) (fun _ => 0)
    (fun _ _ => 1) [⟨[(⟨14, "Si"⟩, 1)], [0, 0, 0]⟩] false [⟨0, 0, 0, 0⟩] 1 0
    [⟨14, [(1, 2)], 0, [0, 0, 0], 1⟩]
    (by simp [flattenSites, flattenSpecies]) (by simp)

/-- Witness instantiating `ed_data_parallel_arrays_and_floor` at a concrete
input retaining exactly one reflection. -/
theorem ed_data_parallel_arrays_witness :
    ([((1 : ℚ), (0 : ℚ), (0 : ℚ))]).length = ([(1 : ℚ)]).length
    ∧ ([[(1 : ℚ), 0, 0]]).length = ([(1 : ℚ)]).length
    ∧ ∀ i ∈ [(1 : ℚ)], (1 : ℚ) / 10 ^ 20 < i :=
  ed_data_parallel_arrays_and_floor (fun q => q) (fun q => q) (fun _ => 1)
    (fun s => if s = "Si" then some [((1 : ℚ), 2)] else none) (fun _ => 0)
    [⟨[(⟨14, "Si"⟩, 1)], [0, 0, 0]⟩] (fun _ _ => 1) (1 / 40) (1 / 10)
    [⟨[1, 0, 0], 1, 0, 0, 1⟩, ⟨[0, 0, 1], 0, 0, 2, 1⟩] true
    ⟨[(1, 0, 0)], [[1, 0, 0]], [1], true⟩ (by
      simp [calculate_ed_data, get_kinematical_intensities, flattenSites,
        flattenSpecies, intersectedPoints, excitationError]
      norm_num)

/-- Witness instantiating `profile_records_antitone` with thresholds 0 and
60 on a two-bucket profile where the lower bucket is filtered out at 60. -/
theorem profile_records_antitone_witness :
    (⟨2, 100, [[2, 0, 0]]⟩ : ProfileRecord)
      ∈ ([⟨1, 50, [[1, 0, 0]]⟩, ⟨2, 100, [[2, 0, 0]]⟩] :
        List ProfileRecord) :=
  profile_records_antitone
    (fun s => if s = "Si" then some [((1 : ℚ), 2)] else none) (fun _ => 0)
    (fun _ g => |g|) [⟨[(⟨14, "Si"⟩, 1)], [0, 0, 0]⟩] false
    [⟨1, 0, 0, 1⟩, ⟨2, 0, 0, 2⟩] 1 0 60
    [⟨1, 50, [[1, 0, 0]]⟩, ⟨2, 100, [[2, 0, 0]]⟩] [⟨2, 100, [[2, 0, 0]]⟩]
    (fun _ g => abs_nonneg g) (by norm_num)
    (by
      simp [calculate_profile_data, flattenSites, flattenSpecies,
        processPoints, sortPoints, List.insertionSort, List.orderedInsert,
        stepPoint, addPeak, hexRelabel, pyRound, profileFromBuckets,
        filterBuckets, bucketsMax, pyMax, mkRecord, get_unique_families,
        bucketLE, ptKeyLE, ptKey, Prod.Lex.le_iff]
      norm_num [bucketLE, mkRecord, pyMax, List.filter, get_unique_families])
    (by
      simp [calculate_profile_data, flattenSites, flattenSpecies,
        processPoints, sortPoints, List.insertionSort, List.orderedInsert,
        stepPoint, addPeak, hexRelabel, pyRound, profileFromBuckets,
        filterBuckets, bucketsMax, pyMax, mkRecord, get_unique_families,
        bucketLE, ptKeyLE, ptKey, Prod.Lex.le_iff]
      norm_num [bucketLE, mkRecord, pyMax, List.filter, get_unique_families])
    ⟨2, 100, [[2, 0, 0]]⟩ (List.mem_singleton.mpr rfl)

/-- Witness instantiating `profile_high_threshold_errors` with
`minimum_intensity = 100`. -/
theorem profile_high_threshold_witness :
    calculate_profile_data
      (fun s => if s = "Si" then some [((1 : ℚ), 2)] else none) (fun _ => 0)
      (fun _ _ => 1) [⟨[(⟨14, "Si"⟩, 1)], [0, 0, 0]⟩] false
      [⟨1, 0, 0, 1⟩] 1 100
      = .error (.valueError "max() arg is an empty sequence") :=
  profile_high_threshold_errors
    (fun s => if s = "Si" then some [((1 : ℚ), 2)] else none) (fun _ => 0)
    (fun _ _ => 1) [⟨[(⟨14, "Si"⟩, 1)], [0, 0, 0]⟩] false [⟨1, 0, 0, 1⟩] 1 100
    [⟨14, [(1, 2)], 0, [0, 0, 0], 1⟩] ⟨1, 0, 0, 1⟩
    (by simp [flattenSites, flattenSpecies]) (fun _ _ => zero_le_one)
    (List.mem_singleton.mpr rfl) one_ne_zero (le_refl 100)
